import Mathlib

/-!
Shallow embedding of `src/behavior_trends_analysis.py` (a pandas pipeline:
a cleaner `filter_data` and four aggregators `loyalty_customers`,
`quarterly_revenue`, `high_demand_products`, `purchase_patterns`).

Modelling decisions, each taken from the source:
* A DataFrame is a list of rows.  A row carries the five core columns
  (`CustomerID`, `Description`, `Quantity`, `UnitPrice`, `InvoiceDate`)
  plus `extra`, the dynamically added per-row columns (pandas
  `df['Total'] = ...` style assignments append to `extra`).
* `CustomerID` is nullable, so `Option Int`; `UnitPrice` is a decimal,
  modelled exactly as `Rat`; `Quantity` is `Int`.
* `InvoiceDate` is the outcome of `pd.to_datetime` on the raw cell:
  `some d` when the timestamp parses to the date `d`, `none` when it does
  not (in which case `pd.to_datetime` raises).
* pandas `groupby(key)` with its default `sort=True` aggregates over the
  distinct keys in ascending key order; `Series.sort_values(ascending=False)`
  reverses a stable ascending argsort, so it is modelled as a stable
  ascending insertion sort followed by `reverse`; `head(n)` slices
  `iloc[:n]`, which for negative `n` drops the last `|n|` elements.
* Python functions that mutate their argument (`quarterly_revenue` assigns
  the `Total` and `Quarter` columns of the shared frame) return the
  post-call state of that argument alongside their result.
-/

/-- A parsed invoice timestamp: the fields of it that the pipeline uses. -/
structure Date where
  year : Int
  month : Nat
deriving DecidableEq, Repr

/-- Value of a dynamically added pandas column cell: a number
(the `Total` column) or a period (the `Quarter` column). -/
inductive Cell where
  | num (r : Rat)
  | per (year : Int) (q : Nat)
deriving DecidableEq, Repr

/-- One row of the table: the five core columns of the dataset plus the
dynamically added columns (`extra`, as name/value pairs in insertion
order). -/
structure Row where
  customerId : Option Int
  description : String
  quantity : Int
  unitPrice : Rat
  invoiceDate : Option Date
  extra : List (String × Cell) := []
deriving DecidableEq, Repr

/-- A pandas DataFrame: its rows in order. -/
abbrev DataFrame := List Row

/-- The calendar quarter `pd.Period('Q')` assigns to a date:
the year together with `⌈month/3⌉`. -/
def quarter (d : Date) : Int × Nat :=
  (d.year, (d.month + 2) / 3)

/-- Ascending order on quarter labels (year first, then quarter number):
the order `groupby('Quarter')` sorts its keys in. -/
def quarterLe (a b : Int × Nat) : Prop :=
  a.1 < b.1 ∨ (a.1 = b.1 ∧ a.2 ≤ b.2)

instance : DecidableRel quarterLe := fun a b => by
  unfold quarterLe; infer_instance

/-- pandas `head n`: `iloc[:n]`; for `n ≥ 0` the first `n` rows, for
`n < 0` all but the last `|n|` rows. -/
def head (n : Int) (l : List α) : List α :=
  l.take (if 0 ≤ n then n.toNat else l.length - (-n).toNat)

/-- Code-point lexicographic comparison of character lists: the order
Python (hence pandas `groupby(sort=True)`) sorts string keys by. -/
def charsLe : List Char → List Char → Bool
  | [], _ => true
  | _ :: _, [] => false
  | a :: as, b :: bs => if a = b then charsLe as bs else decide (a < b)

/-- Comparison of strings by code point, as pandas orders string group keys. -/
def strLe (a b : String) : Prop :=
  charsLe a.data b.data = true

instance : DecidableRel strLe := fun a b => by
  unfold strLe; infer_instance

/-- Strict code-point order on strings. -/
def strLt (a b : String) : Prop :=
  strLe a b ∧ a ≠ b

instance : DecidableRel strLt := fun a b => by
  unfold strLt; infer_instance

/-- The distinct keys of `l` in ascending order: what pandas
`groupby(key, sort=True)` iterates over. -/
def sortedKeys (r : α → α → Prop) [DecidableRel r] [DecidableEq α]
    (l : List α) : List α :=
  List.insertionSort r l.dedup

/-- Model of `filter_data`: drop rows with a missing `CustomerID`, then keep the
rows with `Quantity > 0` and `UnitPrice > 0`.
Source: `df = df.dropna(subset=['CustomerID'])`;
`df = df[(df['Quantity'] > 0) & (df['UnitPrice'] > 0)]`. -/
def filter_data (df : DataFrame) : DataFrame :=
  let df1 := df.filter (fun r => r.customerId.isSome)
  df1.filter (fun r => decide (0 < r.quantity) && decide (0 < r.unitPrice))

/-- The column `df.groupby('CustomerID')` groups on: the non-null customer ids
(pandas drops null group keys). -/
def customerIds (df : DataFrame) : List Int :=
  df.filterMap (fun r => r.customerId)

/-- Model of `loyalty_customers`: group by `CustomerID`, count rows
per group (`.size()`), keep the groups with count `≥ min_purchases`.
Returns (post-call state of `df`, result rows): the frame is not written.
Source: `customer_purchases = df.groupby('CustomerID').size()`;
`loyal_customers = customer_purchases[customer_purchases >= min_purchases]
.reset_index(name='Purchase Count')`. -/
def loyalty_customers (df : DataFrame) (min_purchases : Int) :
    DataFrame × List (Int × Nat) :=
  let ids := customerIds df
  let counts := (sortedKeys (· ≤ ·) ids).map
    (fun c => (c, (ids.filter (fun x => x = c)).length))
  (df, counts.filter (fun p => min_purchases ≤ (p.2 : Int)))

/-- The `DateParseError` failure of the period aggregation. -/
inductive DateParseError where
  | mk
deriving DecidableEq, Repr

/-- Effect of `df['Total'] = df['Quantity'] * df['UnitPrice']` on one row. -/
def addTotal (r : Row) : Row :=
  { r with extra := r.extra ++ [("Total", Cell.num (r.quantity * r.unitPrice))] }

/-- Model of `pd.to_datetime(df['InvoiceDate'])`: parse the whole column, failing
as a whole if any cell fails; on success each row is paired with its
parsed date. -/
def parseDates : List Row → Option (List (Row × Date))
  | [] => some []
  | r :: rs =>
    match r.invoiceDate, parseDates rs with
    | some d, some rest => some ((r, d) :: rest)
    | _, _ => none

/-- Effect of `df['Quarter'] = ...dt.to_period('Q')` on one row. -/
def addQuarter (rd : Row × Date) : Row :=
  { rd.1 with extra := rd.1.extra ++
      [("Quarter", Cell.per (quarter rd.2).1 (quarter rd.2).2)] }

/-- The line revenue a row contributes: `Quantity * UnitPrice`. -/
def rowTotal (r : Row) : Rat :=
  r.quantity * r.unitPrice

/-- Model of `quarterly_revenue`: assign the per-row `Total` column, parse the
invoice dates into the `Quarter` column (raising `DateParseError` if any
cell does not parse; the `Total` assignment has already happened), then
`groupby('Quarter')['Total'].sum()` in ascending quarter order.
Returns (post-call state of `df`, result). -/
def quarterly_revenue (df : DataFrame) :
    DataFrame × Except DateParseError (List ((Int × Nat) × Rat)) :=
  let df1 := df.map addTotal
  match parseDates df1 with
  | none => (df1, Except.error DateParseError.mk)
  | some wd =>
    let df2 := wd.map addQuarter
    let revenue := (sortedKeys quarterLe (wd.map (fun p => quarter p.2))).map
      (fun k => (k, ((wd.filter (fun p => quarter p.2 = k)).map
        (fun p => rowTotal p.1)).sum))
    (df2, Except.ok revenue)

/-- Value of `df.groupby('Description')['Quantity'].sum()` for one description. -/
def sumQty (df : DataFrame) (d : String) : Int :=
  ((df.filter (fun r => r.description = d)).map (fun r => r.quantity)).sum

/-- Comparison by summed quantity: the key `sort_values` sorts on. -/
def valLe (a b : String × Int) : Prop :=
  a.2 ≤ b.2

instance : DecidableRel valLe := fun a b => by
  unfold valLe; infer_instance

/-- Model of `df.groupby('Description')['Quantity'].sum()`: one (description, summed
quantity) pair per distinct description, in ascending description order. -/
def demandSums (df : DataFrame) : List (String × Int) :=
  (sortedKeys strLe (df.map (fun r => r.description))).map
    (fun d => (d, sumQty df d))

/-- Model of `sort_values(ascending=False)`: pandas `nargsort` with
`ascending=False` reverses the ascending argsort, so: stable ascending
insertion sort by summed quantity, then reverse. -/
def demandRanking (df : DataFrame) : List (String × Int) :=
  (List.insertionSort valLe (demandSums df)).reverse

/-- Model of `high_demand_products`: group by `Description`, sum `Quantity`
per group, `sort_values(ascending=False)`, take `head top_n`.
Returns (post-call state of `df`, result rows): the frame is not written. -/
def high_demand_products (df : DataFrame) (top_n : Int) :
    DataFrame × List (String × Int) :=
  (df, head top_n (demandRanking df))

/-- Model of `purchase_patterns`: group by `Description` (ascending description
order), take the arithmetic mean of `Quantity` and of `UnitPrice` per
group.  Returns (post-call state of `df`, result rows): the frame is not
written. -/
def purchase_patterns (df : DataFrame) :
    DataFrame × List (String × Rat × Rat) :=
  let patterns := (sortedKeys strLe (df.map (fun r => r.description))).map
    (fun d =>
      let g := df.filter (fun r => r.description = d)
      (d, (g.map (fun r => (r.quantity : Rat))).sum / (g.length : Rat),
          (g.map (fun r => r.unitPrice)).sum / (g.length : Rat)))
  (df, patterns)

/-- The row with its dynamic columns stripped: the five core columns. -/
def stripExtra (r : Row) : Row :=
  { r with extra := [] }

/-- The number of rows of `df` carrying the customer id `c`. -/
def custCount (df : DataFrame) (c : Int) : Nat :=
  (df.filter (fun r => r.customerId = some c)).length

/-! Concrete tables used to instantiate theorems (all of them already
clean: every row has a customer id, positive quantity, positive price). -/

/-- A clean row: customer 1 buys 5 × product A at 2.0 in 2011-01. -/
def rA1 : Row :=
  { customerId := some 1, description := "A", quantity := 5, unitPrice := 2,
    invoiceDate := some ⟨2011, 1⟩ }

/-- A clean row: customer 1 buys 3 × product A at 2.0 in 2011-02. -/
def rA2 : Row :=
  { customerId := some 1, description := "A", quantity := 3, unitPrice := 2,
    invoiceDate := some ⟨2011, 2⟩ }

/-- A clean row: customer 2 buys 1 × product B at 10.0 in 2011-04. -/
def rB1 : Row :=
  { customerId := some 2, description := "B", quantity := 1, unitPrice := 10,
    invoiceDate := some ⟨2011, 4⟩ }

/-- The cleaned example table of the specification (§8, end-to-end). -/
def exDf : DataFrame :=
  [rA1, rA2, rB1]

/-- A clean row of product A with quantity 5. -/
def tieA : Row :=
  { customerId := some 1, description := "A", quantity := 5, unitPrice := 1,
    invoiceDate := some ⟨2011, 1⟩ }

/-- A clean row of product B with quantity 5: it ties with `tieA`. -/
def tieB : Row :=
  { customerId := some 2, description := "B", quantity := 5, unitPrice := 1,
    invoiceDate := some ⟨2011, 1⟩ }

/-- A cleaned table where products A and B tie on summed quantity and A
appears first. -/
def exTie : DataFrame :=
  [tieA, tieB]

/-- A cleaned table with a single product group. -/
def exOne : DataFrame :=
  [tieA]

/-- A clean row whose invoice timestamp does not parse. -/
def rBad : Row :=
  { customerId := some 1, description := "A", quantity := 5, unitPrice := 2,
    invoiceDate := none }

/-- A cleaned table containing an unparsable invoice timestamp. -/
def exBad : DataFrame :=
  [rBad]

/-! ### Order lemmas for the string comparison -/

theorem charsLe_total : ∀ as bs, charsLe as bs = true ∨ charsLe bs as = true
  | [], _ => Or.inl rfl
  | _ :: _, [] => Or.inr rfl
  | a :: as, b :: bs => by
    by_cases hab : a = b
    · subst hab
      simpa [charsLe] using charsLe_total as bs
    · rcases lt_or_gt_of_ne hab with h | h
      · exact Or.inl (by simp [charsLe, hab, h])
      · exact Or.inr (by simp [charsLe, Ne.symm hab, h])

theorem charsLe_trans : ∀ {as bs cs}, charsLe as bs = true →
    charsLe bs cs = true → charsLe as cs = true
  | [], _, _, _, _ => rfl
  | _ :: _, [], _, h, _ => by simp [charsLe] at h
  | _ :: _, _ :: _, [], _, h => by simp [charsLe] at h
  | a :: as, b :: bs, c :: cs, h1, h2 => by
    by_cases hab : a = b <;> by_cases hbc : b = c
    · subst hab; subst hbc
      simp only [charsLe, if_pos rfl] at h1 h2 ⊢
      exact charsLe_trans h1 h2
    · subst hab
      simpa [charsLe, hbc] using h2
    · subst hbc
      simpa [charsLe, hab] using h1
    · simp only [charsLe, if_neg hab, decide_eq_true_eq] at h1
      simp only [charsLe, if_neg hbc, decide_eq_true_eq] at h2
      have hac : a < c := lt_trans h1 h2
      simp [charsLe, ne_of_lt hac, hac]

theorem charsLe_antisymm : ∀ {as bs}, charsLe as bs = true →
    charsLe bs as = true → as = bs
  | [], [], _, _ => rfl
  | [], _ :: _, _, h => by simp [charsLe] at h
  | _ :: _, [], h, _ => by simp [charsLe] at h
  | a :: as, b :: bs, h1, h2 => by
    by_cases hab : a = b
    · subst hab
      simp only [charsLe, if_pos rfl] at h1 h2
      exact congrArg (a :: ·) (charsLe_antisymm h1 h2)
    · simp only [charsLe, if_neg hab, decide_eq_true_eq] at h1
      simp only [charsLe, if_neg (Ne.symm hab), decide_eq_true_eq] at h2
      exact absurd h2 (not_lt_of_lt h1)

instance : IsTotal String strLe :=
  ⟨fun a b => charsLe_total a.data b.data⟩

instance : IsTrans String strLe :=
  ⟨fun _ _ _ h1 h2 => charsLe_trans h1 h2⟩

theorem strLe_antisymm {a b : String} (h1 : strLe a b) (h2 : strLe b a) :
    a = b :=
  String.ext (charsLe_antisymm h1 h2)

theorem strLe_of_not_strLe {a b : String} (h : ¬ strLe a b) : strLe b a :=
  (charsLe_total a.data b.data).resolve_left h

theorem strLt_asymm {a b : String} (h : strLt a b) : ¬ strLt b a :=
  fun h' => h.2 (strLe_antisymm h.1 h'.1)

theorem strLe_of_strLt {a b : String} (h : strLt a b) : strLe a b :=
  h.1

/-! ### Facts about `sortedKeys` -/

theorem mem_sortedKeys {r : α → α → Prop} [DecidableRel r] [DecidableEq α]
    {l : List α} {a : α} : a ∈ sortedKeys r l ↔ a ∈ l := by
  unfold sortedKeys
  rw [List.mem_insertionSort, List.mem_dedup]

theorem nodup_sortedKeys (r : α → α → Prop) [DecidableRel r] [DecidableEq α]
    (l : List α) : (sortedKeys r l).Nodup :=
  ((List.perm_insertionSort r l.dedup).nodup_iff).mpr (List.nodup_dedup l)

theorem length_sortedKeys (r : α → α → Prop) [DecidableRel r] [DecidableEq α]
    (l : List α) : (sortedKeys r l).length = l.dedup.length :=
  (List.perm_insertionSort r l.dedup).length_eq

theorem sorted_sortedKeys (r : α → α → Prop) [DecidableRel r] [DecidableEq α]
    [IsTotal α r] [IsTrans α r] (l : List α) :
    (sortedKeys r l).Sorted r :=
  List.sorted_insertionSort r l.dedup

/-- The distinct string keys come out strictly increasing. -/
theorem pairwise_strLt_sortedKeys (l : List String) :
    (sortedKeys strLe l).Pairwise strLt := by
  have hs : (sortedKeys strLe l).Pairwise strLe := sorted_sortedKeys strLe l
  have hn : (sortedKeys strLe l).Pairwise (· ≠ ·) := nodup_sortedKeys strLe l
  exact (hs.and hn).imp (fun h => ⟨h.1, h.2⟩)

/-! ### The descending value sort: order among ties -/

/-- Ascending (quantity, description) lexicographic strict order. -/
def lexAsc (a b : String × Int) : Prop :=
  a.2 < b.2 ∨ (a.2 = b.2 ∧ strLt a.1 b.1)

/-- Descending (quantity, description) lexicographic strict order: what
reversing the stable ascending sort produces. -/
def lexDesc (a b : String × Int) : Prop :=
  lexAsc b a

theorem lexAsc_asymm {a b : String × Int} (h : lexAsc a b) : ¬ lexAsc b a := by
  rcases h with h | ⟨he, hs⟩
  · rintro (h' | ⟨he', _⟩)
    · exact absurd h' (not_lt_of_lt h)
    · exact absurd h (by omega)
  · rintro (h' | ⟨_, hs'⟩)
    · exact absurd h' (by omega)
    · exact strLt_asymm hs hs'

theorem valLe_of_lexAsc {a b : String × Int} (h : lexAsc a b) : a.2 ≤ b.2 := by
  rcases h with h | ⟨he, _⟩
  · exact le_of_lt h
  · exact le_of_eq he

/-- Inserting the element whose description is strictly least keeps the
list lexicographically sorted. -/
theorem pairwise_lexAsc_orderedInsert (x : String × Int) :
    ∀ (s : List (String × Int)), s.Pairwise lexAsc →
      (∀ y ∈ s, strLt x.1 y.1) →
      (List.orderedInsert valLe x s).Pairwise lexAsc
  | [], _, _ => List.pairwise_singleton lexAsc x
  | y :: t, hs, hx => by
    by_cases h : valLe x y
    · rw [List.orderedInsert_of_le valLe t h]
      refine List.Pairwise.cons (fun z hz => ?_) hs
      rcases List.mem_cons.mp hz with hzy | hzt
      · rw [hzy]
        rcases lt_or_eq_of_le (show x.2 ≤ y.2 from h) with hlt | heq
        · exact Or.inl hlt
        · exact Or.inr ⟨heq, hx y (List.mem_cons_self y t)⟩
      · have hyz : y.2 ≤ z.2 := valLe_of_lexAsc
          (List.rel_of_pairwise_cons hs hzt)
        rcases lt_or_eq_of_le (le_trans (show x.2 ≤ y.2 from h) hyz) with
          hlt | heq
        · exact Or.inl hlt
        · exact Or.inr ⟨heq, hx z (List.mem_cons_of_mem y hzt)⟩
    · have hrw : List.orderedInsert valLe x (y :: t) =
          y :: List.orderedInsert valLe x t := by
        simp [List.orderedInsert, h]
      rw [hrw]
      refine List.Pairwise.cons (fun z hz => ?_) ?_
      · rcases (List.mem_orderedInsert valLe).mp hz with hzx | hzt
        · rw [hzx]
          exact Or.inl (lt_of_not_le (show ¬ x.2 ≤ y.2 from h))
        · exact List.rel_of_pairwise_cons hs hzt
      · exact pairwise_lexAsc_orderedInsert x t hs.of_cons
          (fun z hz => hx z (List.mem_cons_of_mem y hz))

/-- Stability of the value sort: on input with strictly increasing
descriptions, the stable ascending sort by value is lexicographically
sorted by (value, description). -/
theorem pairwise_lexAsc_insertionSort :
    ∀ (l : List (String × Int)), l.Pairwise (fun a b => strLt a.1 b.1) →
      (List.insertionSort valLe l).Pairwise lexAsc
  | [], _ => List.Pairwise.nil
  | x :: l, hl => by
    show (List.orderedInsert valLe x (List.insertionSort valLe l)).Pairwise lexAsc
    refine pairwise_lexAsc_orderedInsert x _
      (pairwise_lexAsc_insertionSort l hl.of_cons) (fun y hy => ?_)
    exact List.rel_of_pairwise_cons hl ((List.mem_insertionSort valLe).mp hy)

/-- The demand sums have strictly increasing descriptions. -/
theorem pairwise_strLt_demandSums (df : DataFrame) :
    (demandSums df).Pairwise (fun a b => strLt a.1 b.1) := by
  unfold demandSums
  exact (pairwise_strLt_sortedKeys _).map _ (fun a b h => h)

/-- The full ranking is sorted strictly descending in (quantity,
description) lexicographic order. -/
theorem pairwise_lexDesc_demandRanking (df : DataFrame) :
    (demandRanking df).Pairwise lexDesc := by
  unfold demandRanking
  rw [List.pairwise_reverse]
  exact pairwise_lexAsc_insertionSort _ (pairwise_strLt_demandSums df)

theorem mem_demandRanking {df : DataFrame} {p : String × Int} :
    p ∈ demandRanking df ↔ p ∈ demandSums df := by
  unfold demandRanking
  rw [List.mem_reverse, List.mem_insertionSort]

theorem length_demandRanking (df : DataFrame) :
    (demandRanking df).length =
      ((df.map (fun r => r.description)).dedup).length := by
  unfold demandRanking
  rw [List.length_reverse, (List.perm_insertionSort valLe _).length_eq]
  unfold demandSums
  rw [List.length_map, length_sortedKeys]

/-- Elements ranked strictly before a retained element are retained. -/
theorem mem_take_of_rel {R : α → α → Prop} (hasymm : ∀ a b, R a b → ¬ R b a) :
    ∀ (l : List α) (n : Nat) (x y : α), l.Pairwise R →
      x ∈ l.take n → y ∈ l → R y x → y ∈ l.take n
  | [], _, _, _, _, hx, _, _ => absurd hx (by simp)
  | _ :: _, 0, _, _, _, hx, _, _ => absurd hx (by simp)
  | z :: t, n + 1, x, y, hp, hx, hy, hr => by
    rcases List.mem_cons.mp hy with hyz | hyt
    · rw [hyz]
      exact List.mem_cons_self z _
    · rcases List.mem_cons.mp hx with hxz | hxt
      · rw [hxz] at hr
        exact absurd hr (hasymm _ _ (List.rel_of_pairwise_cons hp hyt))
      · exact List.mem_cons_of_mem z
          (mem_take_of_rel hasymm t n x y hp.of_cons hxt hyt hr)

/-! ### Facts about date parsing -/

theorem parseDates_map_fst : ∀ {l : List Row} {wd : List (Row × Date)},
    parseDates l = some wd → wd.map Prod.fst = l
  | [], wd, h => by
    simp only [parseDates, Option.some.injEq] at h
    rw [← h]; rfl
  | r :: rs, wd, h => by
    simp only [parseDates] at h
    cases hd : r.invoiceDate with
    | none => rw [hd] at h; exact absurd h (by simp)
    | some d =>
      rw [hd] at h
      cases hp : parseDates rs with
      | none => rw [hp] at h; exact absurd h (by simp)
      | some rest =>
        rw [hp] at h
        simp only [Option.some.injEq] at h
        rw [← h, List.map_cons, parseDates_map_fst hp]

theorem parseDates_none_of : ∀ {l : List Row},
    (∃ r ∈ l, r.invoiceDate = none) → parseDates l = none
  | [], h => absurd h (by simp)
  | r :: rs, h => by
    rcases h with ⟨s, hs, hnone⟩
    rcases List.mem_cons.mp hs with hsr | hst
    · simp only [parseDates, hsr ▸ hnone]
    · simp only [parseDates, parseDates_none_of ⟨s, hst, hnone⟩]
      cases r.invoiceDate <;> rfl

theorem parseDates_some_of : ∀ {l : List Row},
    (∀ r ∈ l, r.invoiceDate.isSome) → ∃ wd, parseDates l = some wd
  | [], _ => ⟨[], rfl⟩
  | r :: rs, h => by
    rcases Option.isSome_iff_exists.mp (h r (List.mem_cons_self r rs)) with
      ⟨d, hd⟩
    rcases parseDates_some_of (fun s hs =>
      h s (List.mem_cons_of_mem r hs)) with ⟨rest, hrest⟩
    exact ⟨(r, d) :: rest, by simp only [parseDates, hd, hrest]⟩

theorem invoiceDate_addTotal (r : Row) :
    (addTotal r).invoiceDate = r.invoiceDate := rfl

theorem stripExtra_addTotal (r : Row) :
    stripExtra (addTotal r) = stripExtra r := rfl

theorem stripExtra_addQuarter (rd : Row × Date) :
    stripExtra (addQuarter rd) = stripExtra rd.1 := rfl

theorem rowTotal_addTotal (r : Row) : rowTotal (addTotal r) = rowTotal r := rfl

/-! ### Summing a list by groups -/

theorem sum_map_filter_add_not {β M : Type _} [AddCommMonoid M]
    (p : β → Bool) (f : β → M) :
    ∀ l : List β, ((l.filter p).map f).sum +
      ((l.filter (fun x => ! p x)).map f).sum = (l.map f).sum
  | [] => by simp
  | x :: l => by
    have ih := sum_map_filter_add_not p f l
    by_cases h : p x = true
    · rw [List.filter_cons_of_pos h, List.filter_cons_of_neg (by simp [h]),
        List.map_cons, List.sum_cons, List.map_cons, List.sum_cons,
        add_assoc, ih]
    · have h' : p x = false := by simpa using h
      rw [List.filter_cons_of_neg (by simp [h']), List.filter_cons_of_pos (by simp [h']),
        List.map_cons, List.sum_cons, List.map_cons, List.sum_cons,
        add_left_comm, ih]

/-- Any list of keys that is duplicate-free and covers every key of `l`
partitions the sum of `f` over `l`. -/
theorem sum_map_groups {β K M : Type _} [AddCommMonoid M] [DecidableEq K]
    (key : β → K) (f : β → M) :
    ∀ (ks : List K) (l : List β), ks.Nodup → (∀ x ∈ l, key x ∈ ks) →
      (ks.map (fun k => ((l.filter (fun x => key x = k)).map f).sum)).sum =
        (l.map f).sum
  | [], l, _, hcov => by
    have : l = [] := List.eq_nil_iff_forall_not_mem.mpr
      (fun x hx => absurd (hcov x hx) (by simp))
    rw [this]; rfl
  | k :: ks, l, hnd, hcov => by
    have hsplit := sum_map_filter_add_not (fun x => decide (key x = k)) f l
    have hfilter : ∀ k' ∈ ks,
        (l.filter (fun x => ! decide (key x = k))).filter
          (fun x => decide (key x = k')) =
        l.filter (fun x => decide (key x = k')) := by
      intro k' hk'
      have hne : k' ≠ k := fun he =>
        (List.pairwise_cons.mp hnd).1 k' hk' he.symm
      rw [List.filter_filter]
      apply List.filter_congr
      intro x _
      cases hx : decide (key x = k') with
      | false => simp
      | true =>
        have : key x = k' := of_decide_eq_true hx
        simp [this, hne]
    have hrec := sum_map_groups key f ks
      (l.filter (fun x => ! decide (key x = k)))
      (List.pairwise_cons.mp hnd).2
      (fun x hx => by
        rcases List.mem_filter.mp hx with ⟨hxl, hxk⟩
        rcases List.mem_cons.mp (hcov x hxl) with hk | hks
        · exact absurd (decide_eq_true hk) (by simpa using hxk)
        · exact hks)
    calc ((k :: ks).map
          (fun k => ((l.filter (fun x => key x = k)).map f).sum)).sum
        = ((l.filter (fun x => key x = k)).map f).sum +
          (ks.map
            (fun k' => ((l.filter (fun x => key x = k')).map f).sum)).sum := by
          rw [List.map_cons, List.sum_cons]
      _ = ((l.filter (fun x => key x = k)).map f).sum +
          (ks.map (fun k' =>
            (((l.filter (fun x => ! decide (key x = k))).filter
              (fun x => decide (key x = k'))).map f).sum)).sum := by
          congr 1
          apply congrArg
          apply List.map_congr_left
          intro k' hk'
          rw [hfilter k' hk']
      _ = ((l.filter (fun x => key x = k)).map f).sum +
          ((l.filter (fun x => ! decide (key x = k))).map f).sum := by
          rw [hrec]
      _ = (l.map f).sum := hsplit

/-! ### Customer counting -/

theorem length_filter_customerIds (c : Int) :
    ∀ df : DataFrame,
      ((customerIds df).filter (fun x => x = c)).length = custCount df c
  | [] => rfl
  | r :: df => by
    have ih := length_filter_customerIds c df
    unfold customerIds custCount at ih ⊢
    cases hid : r.customerId with
    | none =>
      simp only [List.filterMap_cons, hid]
      rw [List.filter_cons_of_neg (by simp [hid])]
      exact ih
    | some v =>
      simp only [List.filterMap_cons, hid]
      by_cases hv : v = c
      · rw [List.filter_cons_of_pos (by simpa using hv),
          List.filter_cons_of_pos (by simp [hid, hv]), List.length_cons,
          List.length_cons, ih]
      · rw [List.filter_cons_of_neg (by simpa using hv),
          List.filter_cons_of_neg (by simp [hid, hv])]
        exact ih

theorem mem_customerIds {df : DataFrame} {c : Int} :
    c ∈ customerIds df ↔ 0 < custCount df c := by
  unfold customerIds custCount
  rw [List.length_pos_iff_exists_mem, List.mem_filterMap]
  constructor
  · rintro ⟨r, hr, hc⟩
    exact ⟨r, List.mem_filter.mpr ⟨hr, by simp [hc]⟩⟩
  · rintro ⟨r, hr⟩
    rcases List.mem_filter.mp hr with ⟨hrl, hrc⟩
    exact ⟨r, hrl, of_decide_eq_true hrc⟩

/-! ### C4 — the cleaner keeps exactly the valid rows, in order -/

/-- C4: for every raw table, `filter_data` returns the sublist of the
input consisting exactly of the rows with a present `CustomerID`,
`Quantity > 0` and `UnitPrice > 0` — a single order-preserving filter. -/
theorem filter_data_spec (df : DataFrame) :
    filter_data df =
      df.filter (fun r => r.customerId.isSome &&
        (decide (0 < r.quantity) && decide (0 < r.unitPrice))) ∧
    (filter_data df).Sublist df := by
  constructor
  · show (df.filter (fun r => r.customerId.isSome)).filter
        (fun r => decide (0 < r.quantity) && decide (0 < r.unitPrice)) = _
    rw [List.filter_filter]
    exact List.filter_congr (fun r _ => by rw [Bool.and_comm])
  · exact List.Sublist.trans (List.filter_sublist _) (List.filter_sublist _)

/-! ### C5 — the cleaner is idempotent -/

/-- C5: re-running `filter_data` on its own output is a no-op. -/
theorem filter_data_idempotent (df : DataFrame) :
    filter_data (filter_data df) = filter_data df := by
  have hmem : ∀ r ∈ filter_data df,
      r.customerId.isSome = true ∧
      (decide (0 < r.quantity) && decide (0 < r.unitPrice)) = true := by
    intro r hr
    rcases List.mem_filter.mp hr with ⟨hr1, hpos⟩
    exact ⟨(List.mem_filter.mp hr1).2, hpos⟩
  show ((filter_data df).filter (fun r => r.customerId.isSome)).filter
      (fun r => decide (0 < r.quantity) && decide (0 < r.unitPrice)) =
    filter_data df
  rw [List.filter_eq_self.mpr (fun r hr => (hmem r hr).1),
    List.filter_eq_self.mpr (fun r hr => (hmem r hr).2)]

/-! ### C7 — the loyalty segmenter -/

/-- C7: `loyalty_customers df m` has one row per customer id with
`custCount df c ≥ m` rows, carrying that exact count, and no other rows;
for `m ≤ 0` it has one row per distinct customer id; the empty table
yields an empty result. -/
theorem loyalty_customers_spec (df : DataFrame) (m : Int) :
    (∀ c k, (c, k) ∈ (loyalty_customers df m).2 ↔
      (0 < custCount df c ∧ k = custCount df c ∧ m ≤ (k : Int))) ∧
    ((loyalty_customers df m).2.map Prod.fst).Nodup ∧
    (m ≤ 0 →
      (loyalty_customers df m).2.length = (customerIds df).dedup.length) ∧
    (loyalty_customers ([] : DataFrame) m).2 = [] := by
  have hres : (loyalty_customers df m).2 =
      ((sortedKeys (· ≤ ·) (customerIds df)).map
        (fun c =>
          (c, ((customerIds df).filter (fun x => x = c)).length))).filter
        (fun p => decide (m ≤ (p.2 : Int))) := rfl
  refine ⟨fun c k => ?_, ?_, fun hm => ?_, rfl⟩
  · rw [hres, List.mem_filter, List.mem_map]
    constructor
    · rintro ⟨⟨c', hc', heq⟩, hd⟩
      simp only [Prod.mk.injEq] at heq
      obtain ⟨rfl, rfl⟩ := heq
      have hc : c' ∈ customerIds df := mem_sortedKeys.mp hc'
      exact ⟨mem_customerIds.mp hc, length_filter_customerIds c' df,
        of_decide_eq_true hd⟩
    · rintro ⟨hpos, rfl, hm⟩
      have hc : c ∈ sortedKeys (· ≤ ·) (customerIds df) :=
        mem_sortedKeys.mpr (mem_customerIds.mpr hpos)
      refine ⟨⟨c, hc, ?_⟩, ?_⟩
      · rw [Prod.mk.injEq]
        exact ⟨rfl, length_filter_customerIds c df⟩
      · simp only [decide_eq_true_eq]
        exact hm
  · rw [hres]
    refine List.Nodup.sublist (List.Sublist.map Prod.fst
      (List.filter_sublist _)) ?_
    rw [List.map_map]
    have hid : (Prod.fst ∘ fun c =>
        (c, ((customerIds df).filter (fun x => x = c)).length)) = id := rfl
    rw [hid, List.map_id]
    exact nodup_sortedKeys _ _
  · have hall : ∀ p ∈ (sortedKeys (· ≤ ·) (customerIds df)).map
        (fun c =>
          (c, ((customerIds df).filter (fun x => x = c)).length)),
        decide (m ≤ (p.2 : Int)) = true := by
      intro p hp
      rcases List.mem_map.mp hp with ⟨c, hc, hrfl⟩
      rw [← hrfl]
      simp only [decide_eq_true_eq]
      have hpos : 0 < custCount df c :=
        mem_customerIds.mp (mem_sortedKeys.mp hc)
      have hlen : ((customerIds df).filter (fun x => x = c)).length =
          custCount df c := length_filter_customerIds c df
      omega
    rw [hres, List.filter_eq_self.mpr hall, List.length_map, length_sortedKeys]

/-- Witness for C7: with a negative threshold, the result of
`loyalty_customers` on a concrete table has one row per distinct
customer. -/
theorem loyalty_customers_spec_witness :
    (loyalty_customers exTie (-3)).2.length =
      (customerIds exTie).dedup.length :=
  (loyalty_customers_spec exTie (-3)).2.2.1 (by decide)

/-! ### C1, C3 — frame effects of the aggregators -/

theorem quarterly_revenue_fst (df : DataFrame) :
    (quarterly_revenue df).1 =
      (match parseDates (df.map addTotal) with
        | none => df.map addTotal
        | some wd => wd.map addQuarter) := by
  cases hp : parseDates (df.map addTotal) <;>
    simp only [quarterly_revenue, hp]

theorem quarterly_revenue_fst_strip (df : DataFrame) :
    (quarterly_revenue df).1.map stripExtra = df.map stripExtra := by
  rw [quarterly_revenue_fst]
  cases hp : parseDates (df.map addTotal) with
  | none =>
    rw [List.map_map]
    exact List.map_congr_left (fun r _ => stripExtra_addTotal r)
  | some wd =>
    rw [List.map_map]
    have h1 : (stripExtra ∘ addQuarter) = stripExtra ∘ Prod.fst := rfl
    rw [h1, ← List.map_map, parseDates_map_fst hp, List.map_map]
    exact List.map_congr_left (fun r _ => stripExtra_addTotal r)

theorem total_col_mem (df : DataFrame) :
    ∀ r ∈ (quarterly_revenue df).1, ∃ c, ("Total", c) ∈ r.extra := by
  rw [quarterly_revenue_fst]
  cases hp : parseDates (df.map addTotal) with
  | none =>
    intro r hr
    rcases List.mem_map.mp hr with ⟨s, _, hs⟩
    refine ⟨Cell.num (s.quantity * s.unitPrice), ?_⟩
    rw [← hs]
    exact List.mem_append_right _ (List.mem_singleton_self _)
  | some wd =>
    intro r hr
    rcases List.mem_map.mp hr with ⟨rd, hrd, hrdr⟩
    have hfst : rd.1 ∈ wd.map Prod.fst := List.mem_map_of_mem Prod.fst hrd
    rw [parseDates_map_fst hp] at hfst
    rcases List.mem_map.mp hfst with ⟨s, _, hs⟩
    refine ⟨Cell.num (s.quantity * s.unitPrice), ?_⟩
    rw [← hrdr]
    show ("Total", _) ∈ rd.1.extra ++ _
    apply List.mem_append_left
    rw [← hs]
    exact List.mem_append_right _ (List.mem_singleton_self _)

/-- C1 (amended): `loyalty_customers`, `high_demand_products` and
`purchase_patterns` leave the cleaned table exactly as it was;
`quarterly_revenue` keeps the rows and their core columns but writes the
per-row `Total` column (and, when the dates parse, `Quarter`) into the
shared frame. -/
theorem aggregators_frame (df : DataFrame) (m t : Int) :
    (loyalty_customers df m).1 = df ∧
    (high_demand_products df t).1 = df ∧
    (purchase_patterns df).1 = df ∧
    (quarterly_revenue df).1.map stripExtra = df.map stripExtra ∧
    (∀ r ∈ (quarterly_revenue df).1, ∃ c, ("Total", c) ∈ r.extra) :=
  ⟨rfl, rfl, rfl, quarterly_revenue_fst_strip df, total_col_mem df⟩

/-- C1 counterexample: on the clean example table, `quarterly_revenue`
does not leave its input table unchanged — every row of the shared frame
gains the intermediate `Total` and `Quarter` columns. -/
theorem aggregators_frame_counterexample :
    (quarterly_revenue exDf).1 ≠ exDf ∧
    (quarterly_revenue exDf).1.map (fun r => r.extra.map Prod.fst) =
      [["Total", "Quarter"], ["Total", "Quarter"], ["Total", "Quarter"]] :=
  ⟨by decide, by decide⟩

/-- Witness for C1 (amended) at the concrete example table. -/
theorem aggregators_frame_witness :
    (quarterly_revenue exDf).1.map stripExtra = exDf.map stripExtra :=
  (aggregators_frame exDf 0 0).2.2.2.1

/-- C3 (amended): a cleaned table with an unparsable invoice timestamp
makes `quarterly_revenue` fail with `DateParseError` and return no
aggregate rows at all; however the failed call is observable: the shared
frame has gained the `Total` column (assigned before the date parse). -/
theorem quarterly_revenue_error (df : DataFrame)
    (h : ∃ r ∈ df, r.invoiceDate = none) :
    (quarterly_revenue df).2 = Except.error DateParseError.mk ∧
    (quarterly_revenue df).1 = df.map addTotal := by
  have hnone : parseDates (df.map addTotal) = none := by
    apply parseDates_none_of
    rcases h with ⟨r, hr, hd⟩
    exact ⟨addTotal r, List.mem_map_of_mem addTotal hr, hd⟩
  refine ⟨?_, ?_⟩ <;> simp only [quarterly_revenue, hnone]

/-- C3 counterexample: after the failing call on a concrete table with an
unparsable timestamp, the input table is observably changed. -/
theorem quarterly_revenue_error_counterexample :
    (quarterly_revenue exBad).2 = Except.error DateParseError.mk ∧
    (quarterly_revenue exBad).1 ≠ exBad :=
  ⟨rfl, by decide⟩

/-- Witness for C3 (amended) at the concrete bad-date table. -/
theorem quarterly_revenue_error_witness :
    (quarterly_revenue exBad).2 = Except.error DateParseError.mk ∧
    (quarterly_revenue exBad).1 = exBad.map addTotal :=
  quarterly_revenue_error exBad ⟨rBad, List.mem_singleton_self rBad, rfl⟩

/-! ### C6 — conservation of revenue -/

/-- C6: when every invoice timestamp parses, `quarterly_revenue` succeeds
and the returned per-quarter revenues sum to the sum of quantity × unit
price over the whole cleaned table. -/
theorem quarterly_revenue_conservation (df : DataFrame)
    (h : ∀ r ∈ df, r.invoiceDate.isSome) :
    ∃ rev, (quarterly_revenue df).2 = Except.ok rev ∧
      (rev.map (fun p => p.2)).sum = (df.map rowTotal).sum := by
  have h1 : ∀ r ∈ df.map addTotal, r.invoiceDate.isSome := by
    intro r hr
    rcases List.mem_map.mp hr with ⟨s, hs, hrs⟩
    rw [← hrs]
    exact h s hs
  rcases parseDates_some_of h1 with ⟨wd, hwd⟩
  refine ⟨(sortedKeys quarterLe (wd.map (fun p => quarter p.2))).map
      (fun k => (k, ((wd.filter (fun p => quarter p.2 = k)).map
        (fun p => rowTotal p.1)).sum)), ?_, ?_⟩
  · simp only [quarterly_revenue, hwd]
  rw [List.map_map]
  have hgrp := sum_map_groups (fun p : Row × Date => quarter p.2)
    (fun p => rowTotal p.1)
    (sortedKeys quarterLe (wd.map (fun p => quarter p.2))) wd
    (nodup_sortedKeys _ _)
    (fun x hx => mem_sortedKeys.mpr (List.mem_map_of_mem _ hx))
  refine hgrp.trans ?_
  have hfst : wd.map (fun p : Row × Date => rowTotal p.1) =
      (wd.map Prod.fst).map rowTotal := by
    rw [List.map_map]; rfl
  rw [hfst, parseDates_map_fst hwd, List.map_map]
  exact congrArg List.sum
    (List.map_congr_left (fun r _ => rowTotal_addTotal r))

/-- Witness for C6 at the concrete example table. -/
theorem quarterly_revenue_conservation_witness :
    ∃ rev, (quarterly_revenue exDf).2 = Except.ok rev ∧
      (rev.map (fun p => p.2)).sum = (exDf.map rowTotal).sum :=
  quarterly_revenue_conservation exDf (by decide)

/-! ### C9 — averages of a single-transaction product -/

/-- C9: a product description with exactly one row of the cleaned table
is reported by `purchase_patterns` with that row's quantity and unit price
(exactly) as its averages, and with no other values. -/
theorem purchase_patterns_singleton (df : DataFrame) (p : String) (r : Row)
    (h : df.filter (fun row => row.description = p) = [r]) :
    (p, (r.quantity : Rat), r.unitPrice) ∈ (purchase_patterns df).2 ∧
    ∀ q u, (p, q, u) ∈ (purchase_patterns df).2 →
      q = (r.quantity : Rat) ∧ u = r.unitPrice := by
  have hrdf : r ∈ df ∧ r.description = p := by
    have hmem : r ∈ df.filter (fun row => row.description = p) := by
      rw [h]; exact List.mem_singleton_self r
    rcases List.mem_filter.mp hmem with ⟨h1, h2⟩
    exact ⟨h1, of_decide_eq_true h2⟩
  have hp : p ∈ sortedKeys strLe (df.map (fun r => r.description)) := by
    apply mem_sortedKeys.mpr
    rw [← hrdf.2]
    exact List.mem_map_of_mem _ hrdf.1
  have hentry :
      ((df.filter (fun row => row.description = p)).map
          (fun r => (r.quantity : Rat))).sum /
        (((df.filter (fun row => row.description = p)).length : Nat) : Rat) =
        (r.quantity : Rat) ∧
      ((df.filter (fun row => row.description = p)).map
          (fun r => r.unitPrice)).sum /
        (((df.filter (fun row => row.description = p)).length : Nat) : Rat) =
        r.unitPrice := by
    rw [h]
    constructor <;> simp
  constructor
  · refine List.mem_map.mpr ⟨p, hp, ?_⟩
    show (p, _, _) = (p, (r.quantity : Rat), r.unitPrice)
    rw [Prod.mk.injEq]
    exact ⟨rfl, by rw [Prod.mk.injEq]; exact ⟨hentry.1, hentry.2⟩⟩
  · intro q u hqu
    rcases List.mem_map.mp hqu with ⟨d, hd, hdq⟩
    have hd1 : d = p := congrArg (fun x => x.1) hdq
    subst hd1
    have hq : q = ((df.filter (fun row => row.description = d)).map
        (fun r => (r.quantity : Rat))).sum /
        (((df.filter (fun row => row.description = d)).length : Nat) : Rat) :=
      (congrArg (fun x => x.2.1) hdq).symm
    have hu : u = ((df.filter (fun row => row.description = d)).map
        (fun r => r.unitPrice)).sum /
        (((df.filter (fun row => row.description = d)).length : Nat) : Rat) :=
      (congrArg (fun x => x.2.2) hdq).symm
    exact ⟨hq.trans hentry.1, hu.trans hentry.2⟩

/-- Witness for C9: product B of the example table has one transaction,
and its pattern row is exactly that row's quantity and price. -/
theorem purchase_patterns_singleton_witness :
    ("B", (rB1.quantity : Rat), rB1.unitPrice) ∈ (purchase_patterns exDf).2 :=
  (purchase_patterns_singleton exDf "B" rB1 (by decide)).1

/-! ### C2 — tie-breaking in the demand ranker -/

/-- C2 (amended): when summed quantities tie, `high_demand_products`
orders the tied products in descending description order — the reversal
of the stable ascending value sort over the alphabetically ordered groups
— not in first-appearance order; and this ordering decides inclusion at
the cutoff: whenever a tied product appears in the result, every tied
product with a lexicographically greater description appears too. -/
theorem high_demand_tie_order :
    (∀ (df : DataFrame) (n : Int),
      ((high_demand_products df n).2).Pairwise lexDesc) ∧
    (∀ (df : DataFrame) (n : Int) (a b : String) (q : Int),
      strLt a b → (a, q) ∈ (high_demand_products df n).2 →
      b ∈ df.map (fun r => r.description) → sumQty df b = q →
      (b, q) ∈ (high_demand_products df n).2) := by
  constructor
  · intro df n
    exact List.Pairwise.sublist (List.take_sublist _ _)
      (pairwise_lexDesc_demandRanking df)
  · intro df n a b q hab ha hb hq
    have hbmem : (b, q) ∈ demandRanking df := by
      apply mem_demandRanking.mpr
      unfold demandSums
      refine List.mem_map.mpr ⟨b, mem_sortedKeys.mpr hb, ?_⟩
      rw [hq]
    exact mem_take_of_rel (fun x y hxy => lexAsc_asymm hxy)
      (demandRanking df) _ (a, q) (b, q)
      (pairwise_lexDesc_demandRanking df) ha hbmem (Or.inr ⟨rfl, hab⟩)

/-- C2 counterexample: on `exTie`, A and B tie at quantity 5 and A is the
first-appearing description, yet with `top_n = 1` the code keeps B, not
A: the tie-break is not first-appearance order. -/
theorem high_demand_tie_counterexample :
    filter_data exTie = exTie ∧
    (high_demand_products exTie 1).2 = [("B", 5)] ∧
    (high_demand_products exTie 1).2 ≠ [("A", 5)] :=
  ⟨by decide, by decide, by decide⟩

/-- Witness for C2 (amended): on `exTie` with `top_n = 2`, A being kept
forces the tied, lexicographically greater B to be kept. -/
theorem high_demand_tie_order_witness :
    ("B", 5) ∈ (high_demand_products exTie 2).2 :=
  high_demand_tie_order.2 exTie 2 "A" "B" 5 (by decide) (by decide)
    (by decide) (by decide)

/-! ### C8 — cardinality and monotonicity of the demand ranker -/

/-- C8: for `top_n ≥ 0` the ranker returns exactly
`min top_n (#distinct products)` rows with non-increasing summed
quantities; `top_n = 0` returns the empty result and any `top_n` at least
the number of distinct products returns the whole ranking. -/
theorem high_demand_count_monotone (df : DataFrame) (top_n : Int)
    (h : 0 ≤ top_n) :
    (high_demand_products df top_n).2.length =
      min top_n.toNat ((df.map (fun r => r.description)).dedup).length ∧
    ((high_demand_products df top_n).2).Pairwise (fun a b => b.2 ≤ a.2) ∧
    (top_n = 0 → (high_demand_products df top_n).2 = []) ∧
    (((df.map (fun r => r.description)).dedup).length ≤ top_n.toNat →
      (high_demand_products df top_n).2 = demandRanking df) := by
  have hres : (high_demand_products df top_n).2 =
      (demandRanking df).take top_n.toNat := by
    show head top_n (demandRanking df) = _
    unfold head
    rw [if_pos h]
  refine ⟨?_, ?_, fun h0 => ?_, fun hd => ?_⟩
  · rw [hres, List.length_take, length_demandRanking]
  · exact List.Pairwise.imp (fun hab => valLe_of_lexAsc hab)
      (List.Pairwise.sublist (List.take_sublist _ _)
        (pairwise_lexDesc_demandRanking df))
  · subst h0
    rw [hres]
    rfl
  · rw [hres]
    apply List.take_of_length_le
    rw [length_demandRanking]
    exact hd

/-- Witness for C8 at a concrete table and cutoff. -/
theorem high_demand_count_monotone_witness :
    (high_demand_products exTie 1).2.length =
      min (Int.toNat 1) ((exTie.map (fun r => r.description)).dedup).length :=
  (high_demand_count_monotone exTie 1 (by decide)).1

/-! ### C10 — negative `top_n` -/

/-- C10 (amended): for negative `top_n`, `high_demand_products` does not
fail; it returns the first `#distinct products − |top_n|` rows of the full
descending ranking (pandas `head` on a negative argument), which is the
empty result whenever `|top_n|` reaches the number of distinct
products. -/
theorem high_demand_negative (df : DataFrame) (n : Int) (h : n < 0) :
    (high_demand_products df n).2 =
      (high_demand_products df
        ((((df.map (fun r => r.description)).dedup).length : Nat) : Int)).2.take
        ((((df.map (fun r => r.description)).dedup).length : Nat) -
          (-n).toNat) ∧
    (high_demand_products df n).2.length =
      (((df.map (fun r => r.description)).dedup).length : Nat) -
        (-n).toNat := by
  have hall : (high_demand_products df
      ((((df.map (fun r => r.description)).dedup).length : Nat) : Int)).2 =
      demandRanking df := by
    show head _ (demandRanking df) = _
    unfold head
    rw [if_pos (Int.natCast_nonneg _), Int.toNat_natCast]
    apply List.take_of_length_le
    rw [length_demandRanking]
  have hresn : (high_demand_products df n).2 =
      (demandRanking df).take
        ((demandRanking df).length - (-n).toNat) := by
    show head n (demandRanking df) = _
    unfold head
    rw [if_neg (not_le.mpr h)]
  constructor
  · rw [hresn, hall, length_demandRanking]
  · rw [hresn, List.length_take, length_demandRanking]
    exact min_eq_left (Nat.sub_le _ _)

/-- C10 counterexample: one distinct product and `top_n = -1` yield an
empty result, refuting "does not return an empty result". -/
theorem high_demand_negative_counterexample :
    (high_demand_products exOne (-1)).2 = [] ∧
    ((exOne.map (fun r => r.description)).dedup).length = 1 :=
  ⟨by decide, by decide⟩

/-- Witness for C10 (amended) at a concrete table and negative cutoff. -/
theorem high_demand_negative_witness :
    (high_demand_products exTie (-1)).2 =
      (high_demand_products exTie
        ((((exTie.map (fun r => r.description)).dedup).length : Nat) : Int)).2.take
        ((((exTie.map (fun r => r.description)).dedup).length : Nat) -
          (-(-1 : Int)).toNat) :=
  (high_demand_negative exTie (-1) (by decide)).1
